import Mathlib

/-!
Verification of the background column sorter (`src/sort.rs`).

Shallow embedding of the sorter's data model and operations:

* `SorterStatus`, `SortResult`, `SorterInternalState` mirror the Rust types.
* Column values are `Option Int` (`none` is a null cell).
* The arrow sort kernel `sort_to_indices` is an external dependency, so the
  Sort Engine is modelled from the spec (ascending order, nulls last, ties
  broken by ascending original row index).
* The worker thread body `run` is translated as a function of the outcomes of
  its external calls (schema inference, file open, batch reads) and of the
  values the `should_terminate` flag has at each per-batch check.
* The lifecycle (lock-protected internal state, the single publish critical
  section, the terminate operation) is a small-step transition system `Step`
  with reachability predicate `Reachable`.  Machine integers (`u64` in
  `get_sorted_indices`) are `Nat` with explicit wrapping modulo `2 ^ 64`.
-/

/-- Status enum `SorterStatus` from `sort.rs`: `Running`, `Finished`,
`Error(String)`. -/
inductive SorterStatus where
  | Running : SorterStatus
  | Finished : SorterStatus
  | Error : String → SorterStatus
  deriving DecidableEq, Repr

/-- Result struct `SortResult` from `sort.rs`: `record_indices` maps
rank → original row index, `record_orders` maps original row index → rank. -/
structure SortResult where
  record_indices : List Nat
  record_orders : List Nat
  deriving DecidableEq, Repr

/-- A column value: `none` models a null cell, `some v` a parsed value. -/
abbrev Value := Option Int

/-- Comparison on column values, ascending with nulls sorted last
(`none` is greatest). -/
def valLe : Value → Value → Bool
  | none, none => true
  | none, some _ => false
  | some _, none => true
  | some a, some b => a ≤ b

/-- Order on `(original index, value)` pairs used by the sort engine: by value
ascending (nulls last), ties broken by ascending original index. -/
def pairLe (p q : Nat × Value) : Prop :=
  (if p.2 = q.2 then decide (p.1 ≤ q.1) else valLe p.2 q.2) = true

instance : DecidableRel pairLe := fun _ _ => instDecidableEqBool _ _

/-- The value of the column at original row index `i` (`none` when out of
range, which never occurs for indices produced by the sort). -/
def keyAt (col : List Value) (i : Nat) : Value := col.getD i none

/-- Modelled from the spec: the pairs `(original index, value)` of the column
arranged by the sort order.  The arrow kernel `sort_to_indices(arr, None,
None)` called at lines 162–163 of `sort.rs` is outside this repository; per
the spec's Sort Engine section it orders values ascending, nulls last, with
ties broken by ascending original row index. -/
def sortedPairs (col : List Value) : List (Nat × Value) :=
  col.enum.insertionSort pairLe

/-- Modelled from the spec: the permutation returned by the arrow kernel
`sort_to_indices` — the original row indices arranged so that the column's
values are ascending, nulls last, ties by ascending original row index. -/
def sort_to_indices (col : List Value) : List Nat :=
  (sortedPairs col).map Prod.fst

/-- The result-construction loop of `run` (`sort.rs` lines 166–173): iterate
over the sorted indices paired with their enumeration order `k`, assigning
`record_orders[sorted_record_index] = record_order`. -/
def writeOrders (acc : List Nat) (k : Nat) : List Nat → List Nat
  | [] => acc
  | idx :: rest => writeOrders (acc.set idx k) (k + 1) rest

/-- The `SortResult` construction of `run` (`sort.rs` lines 161–178): sort the
column, take the sorted indices as `record_indices`, and scatter the ranks
into `record_orders` (initialised to `vec![0; n]`). -/
def buildSortResult (col : List Value) : SortResult :=
  let sorted_indices := sort_to_indices col
  { record_indices := sorted_indices
    record_orders := writeOrders (List.replicate sorted_indices.length 0) 0 sorted_indices }

/-- Query `Sorter::get_sorted_indices` (`sort.rs` lines 48–60), as a function
of the locked state's `sort_result`.  The loop bound of
`for i in rows_from..rows_from + num_rows` is a `u64` sum, wrapping modulo
`2 ^ 64`; every `i` for which `record_indices.get(i)` is in bounds is
pushed. -/
def get_sorted_indices (sort_result : Option SortResult) (rows_from num_rows : Nat) :
    Option (List Nat) :=
  match sort_result with
  | some r =>
      let hi := (rows_from + num_rows) % 2 ^ 64
      some ((List.range' rows_from (hi - rows_from)).filterMap (fun i => r.record_indices[i]?))
  | none => none

/-- Query `Sorter::get_record_order` (`sort.rs` lines 62–70), as a function of
the locked state's `sort_result`. -/
def get_record_order (sort_result : Option SortResult) (row_index : Nat) : Option Nat :=
  match sort_result with
  | some r => r.record_orders[row_index]?
  | none => none

/-!
The worker body `run` (`sort.rs` lines 129–179).  External effects are
parameters: the outcome of schema inference, of opening the file, and of each
batch read; `flagAt k` is the value of the shared `should_terminate` flag at
the worker's check following the `k`-th batch (line 151).
-/

/-- Outcome of one `record_batch_result` item of the arrow CSV reader. -/
inductive BatchOutcome where
  | ok : List Value → BatchOutcome
  | err : String → BatchOutcome

/-- Outcome of the worker body: `Ok(sort_result)`, `Err(msg)`, or a panic
(a failed `unwrap`, after which the thread dies without publishing). -/
inductive RunOutcome where
  | ok : SortResult → RunOutcome
  | err : String → RunOutcome
  | panic : RunOutcome
  deriving Repr

/-- The batch loop of `run` (`sort.rs` lines 146–154): for each batch result,
fail on a read error, otherwise push the chunk, then check `should_terminate`
and return `Err("Terminated")` if it is set. -/
def readBatches (flagAt : Nat → Bool) : List BatchOutcome → Nat → List (List Value) →
    Except String (List (List Value))
  | [], _, acc => .ok acc
  | b :: rest, k, acc =>
      match b with
      | .err m => .error m
      | .ok batch =>
          if flagAt k then .error "Terminated"
          else readBatches flagAt rest (k + 1) (acc ++ [batch])

/-- The worker body `run` (`sort.rs` lines 129–179): infer the schema, open
the file, stream the batches (checking the termination flag after each), then
concatenate the chunks (arrow's `concat` errors on an empty slice, so the
`unwrap` at line 159 panics when no batch was read) and sort. -/
def runWorker (inferResult : Except String Unit) (openResult : Except String Unit)
    (batches : List BatchOutcome) (flagAt : Nat → Bool) : RunOutcome :=
  match inferResult with
  | .error m => .err m
  | .ok _ =>
    match openResult with
    | .error m => .err m
    | .ok _ =>
      match readBatches flagAt batches 0 [] with
      | .error m => .err m
      | .ok arrs =>
          if arrs.isEmpty then .panic
          else .ok (buildSortResult arrs.flatten)

/-!
The lifecycle transition system (`sort.rs` lines 110–194 and 222–224).
`SorterInternalState` is guarded by one mutex; the worker publishes once
(lines 183–190, one critical section) and `terminate` sets the flag
(lines 222–224; called by `Sorter::terminate`, hence also by `Drop`).
The queries and `status()` are read-only functions of the state, so they do
not appear as transitions.  `pc` records whether the worker thread is still
before its publish section.
-/

/-- Worker thread position: still working (publish not yet executed), or
exited (after publishing, or after a panic that skipped publishing). -/
inductive WorkerPc where
  | working : WorkerPc
  | exited : WorkerPc
  deriving DecidableEq, Repr

/-- State struct `SorterInternalState` from `sort.rs` (lines 102–108)
together with the worker's position. -/
structure SorterState where
  pc : WorkerPc
  sort_result : Option SortResult
  status : SorterStatus
  should_terminate : Bool
  done : Bool
  deriving Repr

/-- The state built by `SorterInternalState::init` (lines 115–120). -/
def initState : SorterState :=
  { pc := .working
    sort_result := none
    status := .Running
    should_terminate := false
    done := false }

/-- The publish critical section (lines 183–190): on `Ok` store the result
and set `Finished`; on `Err` set `Error(msg)` and store nothing; either way
set `done := true`.  A panic inside `run` skips the publish section
entirely. -/
def applyPublish (s : SorterState) : RunOutcome → SorterState
  | .ok r => { s with pc := .exited, sort_result := some r, status := .Finished, done := true }
  | .err m => { s with pc := .exited, status := .Error m, done := true }
  | .panic => { s with pc := .exited }

/-- One state mutation: the worker's single publish step (possible only while
the worker has not exited), or any handle holder setting `should_terminate`
(`terminate`, also invoked by `Drop`). -/
inductive Step : SorterState → SorterState → Prop where
  | publish (o : RunOutcome) (s : SorterState) (h : s.pc = .working) :
      Step s (applyPublish s o)
  | terminate (s : SorterState) :
      Step s { s with should_terminate := true }

/-- States reachable from the freshly initialised handle. -/
inductive Reachable : SorterState → Prop where
  | init : Reachable initState
  | step {s s' : SorterState} : Reachable s → Step s s' → Reachable s'

/-!
Schema inference (`sort.rs` lines 196–220).
-/

/-- Arrow data types relevant to `infer_schema`. -/
inductive DataType where
  | int8 | int16 | int32 | int64
  | uint8 | uint16 | uint32 | uint64
  | float32 | float64
  | utf8 | boolean
  deriving DecidableEq, Repr

/-- Arrow's `DataType::is_integer`. -/
def DataType.is_integer : DataType → Bool
  | .int8 | .int16 | .int32 | .int64
  | .uint8 | .uint16 | .uint32 | .uint64 => true
  | _ => false

/-- An arrow `Field` (named `ArrowField` because Mathlib takes `Field`):
a name, a data type and a nullability flag. -/
structure ArrowField where
  name : String
  data_type : DataType
  nullable : Bool
  deriving DecidableEq, Repr

/-- Arrow's `Field::with_data_type`: the same field with its data type
replaced. -/
def ArrowField.with_data_type (f : ArrowField) (dt : DataType) : ArrowField :=
  { f with data_type := dt }

/-- The row-sampling bound passed to `infer_schema_from_files`
(`sort.rs` line 200): `Some(1000)`. -/
def infer_schema_max_records : Option Nat := some 1000

/-- Function `SorterInternalState::infer_schema` (lines 196–220) as a function
of the outcome of the external call `arrow::csv::infer_schema_from_files(...,
infer_schema_max_records, true)` — modelled from the spec: that call samples
up to 1000 rows with the given delimiter and fails if the file cannot be
opened or no header is discoverable.  On success every integer-typed field is
replaced by the same field with data type `Float64`; other fields are pushed
unchanged; a failure propagates. -/
def infer_schema (rawResult : Except String (List ArrowField)) :
    Except String (List ArrowField) :=
  match rawResult with
  | .error e => .error e
  | .ok fields =>
      .ok (fields.map (fun field =>
        if field.data_type.is_integer then field.with_data_type .float64 else field))

/-- The dataset of the repository's `test_simple` and of the spec's
tie-stability property: 1001 rows whose value at row `i` is the minimal value
`0` at rows 0, 9, 99, 999 and 1000, and the ascending value `i` elsewhere. -/
def exampleCol : List Value :=
  (List.range 1001).map (fun i =>
    if i = 0 || i = 9 || i = 99 || i = 999 || i = 1000 then some 0 else some (Int.ofNat i))

/-!
Helper lemmas: the value order and the pair order.
-/

lemma valLe_refl (a : Value) : valLe a a = true := by
  cases a <;> simp [valLe]

lemma valLe_total (a b : Value) : valLe a b = true ∨ valLe b a = true := by
  cases a <;> cases b <;> simp [valLe] <;> omega

lemma valLe_trans {a b c : Value} (h1 : valLe a b = true) (h2 : valLe b c = true) :
    valLe a c = true := by
  cases a <;> cases b <;> cases c <;> simp [valLe] at * <;> omega

lemma valLe_antisymm {a b : Value} (h1 : valLe a b = true) (h2 : valLe b a = true) :
    a = b := by
  cases a <;> cases b <;> simp [valLe] at * <;> omega

lemma pairLe_of_eq_snd {p q : Nat × Value} (h : p.2 = q.2) :
    pairLe p q ↔ p.1 ≤ q.1 := by
  simp [pairLe, h]

lemma pairLe_of_ne_snd {p q : Nat × Value} (h : p.2 ≠ q.2) :
    pairLe p q ↔ valLe p.2 q.2 = true := by
  simp [pairLe, h]

instance : IsTotal (Nat × Value) pairLe where
  total p q := by
    by_cases h : p.2 = q.2
    · rw [pairLe_of_eq_snd h, pairLe_of_eq_snd h.symm]
      omega
    · rw [pairLe_of_ne_snd h, pairLe_of_ne_snd (Ne.symm h)]
      exact valLe_total _ _

instance : IsTrans (Nat × Value) pairLe where
  trans p q r hpq hqr := by
    by_cases h1 : p.2 = q.2 <;> by_cases h2 : q.2 = r.2
    · rw [pairLe_of_eq_snd h1] at hpq
      rw [pairLe_of_eq_snd h2] at hqr
      rw [pairLe_of_eq_snd (h1.trans h2)]
      omega
    · rw [pairLe_of_ne_snd h2] at hqr
      rw [pairLe_of_ne_snd (h1 ▸ h2)]
      exact h1 ▸ hqr
    · rw [pairLe_of_ne_snd h1] at hpq
      rw [pairLe_of_ne_snd (h2 ▸ h1)]
      exact h2 ▸ hpq
    · rw [pairLe_of_ne_snd h1] at hpq
      rw [pairLe_of_ne_snd h2] at hqr
      by_cases h3 : p.2 = r.2
      · exact absurd (valLe_antisymm hpq (h3 ▸ hqr)) h1
      · rw [pairLe_of_ne_snd h3]
        exact valLe_trans hpq hqr

lemma pairLe_imp_valLe {p q : Nat × Value} (h : pairLe p q) : valLe p.2 q.2 = true := by
  by_cases hv : p.2 = q.2
  · rw [hv]
    exact valLe_refl _
  · exact (pairLe_of_ne_snd hv).mp h

/-!
Helper lemmas: the sorted permutation and the rank table.
-/

lemma sortedPairs_perm (col : List Value) : (sortedPairs col).Perm col.enum :=
  List.perm_insertionSort pairLe col.enum

lemma sortedPairs_pairwise (col : List Value) : List.Pairwise pairLe (sortedPairs col) :=
  List.sorted_insertionSort pairLe col.enum

lemma sort_to_indices_perm_range (col : List Value) :
    (sort_to_indices col).Perm (List.range col.length) := by
  have h := (sortedPairs_perm col).map Prod.fst
  rwa [List.enum_map_fst] at h

lemma length_sort_to_indices (col : List Value) :
    (sort_to_indices col).length = col.length := by
  rw [(sort_to_indices_perm_range col).length_eq, List.length_range]

lemma sort_to_indices_nodup (col : List Value) : (sort_to_indices col).Nodup :=
  (sort_to_indices_perm_range col).symm.nodup (List.nodup_range _)

lemma mem_sort_to_indices {col : List Value} {i : Nat} :
    i ∈ sort_to_indices col ↔ i < col.length := by
  rw [(sort_to_indices_perm_range col).mem_iff, List.mem_range]

lemma sortedPairs_getElem_spec (col : List Value) (p : Nat)
    (hp : p < (sortedPairs col).length) :
    (sortedPairs col)[p].1 < col.length ∧
      (sortedPairs col)[p].2 = keyAt col (sortedPairs col)[p].1 := by
  have hmem : (sortedPairs col)[p] ∈ col.enum :=
    (sortedPairs_perm col).mem_iff.mp (List.getElem_mem hp)
  have hget := List.mem_enum_iff_getElem?.mp hmem
  have hlt : (sortedPairs col)[p].1 < col.length := by
    rcases List.getElem?_eq_some.mp hget with ⟨h, _⟩
    exact h
  refine ⟨hlt, ?_⟩
  rw [keyAt, List.getD_eq_getElem?_getD, hget, Option.getD_some]

lemma writeOrders_length (l : List Nat) (acc : List Nat) (k : Nat) :
    (writeOrders acc k l).length = acc.length := by
  induction l generalizing acc k with
  | nil => rfl
  | cons x rest ih => rw [writeOrders, ih, List.length_set]

lemma writeOrders_getElem?_of_not_mem {l : List Nat} {idx : Nat} (h : idx ∉ l)
    (acc : List Nat) (k : Nat) :
    (writeOrders acc k l)[idx]? = acc[idx]? := by
  induction l generalizing acc k with
  | nil => rfl
  | cons x rest ih =>
      rw [List.mem_cons, not_or] at h
      rw [writeOrders, ih h.2, List.getElem?_set_ne (Ne.symm h.1)]

lemma writeOrders_getElem?_hit {l : List Nat} (hnd : l.Nodup)
    (acc : List Nat) (k : Nat) (hb : ∀ x ∈ l, x < acc.length)
    (j : Nat) (hj : j < l.length) :
    (writeOrders acc k l)[l[j]]? = some (k + j) := by
  induction l generalizing acc k j with
  | nil => exact absurd hj (by simp)
  | cons x rest ih =>
      rw [List.nodup_cons] at hnd
      cases j with
      | zero =>
          rw [writeOrders, List.getElem_cons_zero,
            writeOrders_getElem?_of_not_mem hnd.1,
            List.getElem?_set_self (hb x (List.mem_cons_self x rest))]
          simp
      | succ j' =>
          rw [writeOrders, List.getElem_cons_succ]
          have := ih hnd.2 (acc.set x k) (k + 1)
            (fun y hy => by rw [List.length_set]; exact hb y (List.mem_cons_of_mem _ hy))
            j' (by simpa using hj)
          rw [this]
          congr 1
          omega

lemma buildSortResult_record_indices (col : List Value) :
    (buildSortResult col).record_indices = sort_to_indices col := rfl

lemma length_record_orders (col : List Value) :
    (buildSortResult col).record_orders.length = col.length := by
  show (writeOrders _ 0 _).length = _
  rw [writeOrders_length, List.length_replicate, length_sort_to_indices]

lemma record_orders_getElem?_hit (col : List Value) (j : Nat)
    (hj : j < (sort_to_indices col).length) :
    (buildSortResult col).record_orders[(sort_to_indices col)[j]]? = some j := by
  show (writeOrders _ 0 _)[(sort_to_indices col)[j]]? = some j
  rw [writeOrders_getElem?_hit (sort_to_indices_nodup col) _ 0
    (fun x hx => by
      rw [List.length_replicate, length_sort_to_indices]
      exact mem_sort_to_indices.mp hx)
    j hj]
  simp

lemma filterMap_range'_getElem? (l : List Nat) (a n : Nat) :
    (List.range' a n).filterMap (fun i => l[i]?) = (l.drop a).take n := by
  induction n generalizing a with
  | zero => simp
  | succ n ih =>
      rw [List.range'_succ, List.filterMap_cons]
      by_cases h : a < l.length
      · rw [List.getElem?_eq_getElem h]
        rw [List.drop_eq_getElem_cons h, List.take_succ_cons]
        exact congrArg _ (ih (a + 1))
      · rw [List.getElem?_eq_none (by omega)]
        rw [List.drop_eq_nil_of_le (by omega), List.take_nil]
        rw [ih (a + 1), List.drop_eq_nil_of_le (by omega), List.take_nil]

lemma get_sorted_indices_eq_window (r : SortResult) (a b : Nat)
    (h : a + b < 2 ^ 64) :
    get_sorted_indices (some r) a b = some ((r.record_indices.drop a).take b) := by
  rw [get_sorted_indices]
  rw [show (a + b) % 2 ^ 64 = a + b from Nat.mod_eq_of_lt h]
  rw [show a + b - a = b from by omega]
  rw [filterMap_range'_getElem?]

/-!
Helper lemmas: the lifecycle invariant and the worker body.
-/

/-- Inductive invariant of the lifecycle: while the worker is still working
the state is exactly as initialised (status `Running`, no result), the result
is present exactly when the status is `Finished`. -/
def StateInv (s : SorterState) : Prop :=
  (s.pc = .working → s.status = .Running ∧ s.sort_result = none) ∧
  (s.status = .Finished → s.sort_result.isSome = true) ∧
  (s.sort_result.isSome = true → s.status = .Finished)

lemma stateInv_init : StateInv initState := by
  refine ⟨fun _ => ⟨rfl, rfl⟩, ?_, ?_⟩ <;> intro h <;> simp [initState] at h

lemma stateInv_step {s s' : SorterState} (hinv : StateInv s) (hstep : Step s s') :
    StateInv s' := by
  cases hstep with
  | publish o _ h =>
      obtain ⟨hrun, hnone⟩ := hinv.1 h
      cases o with
      | ok r => exact ⟨by simp [applyPublish], by simp [applyPublish], fun _ => rfl⟩
      | err m =>
          refine ⟨by simp [applyPublish], ?_, ?_⟩ <;> intro hc <;>
            simp [applyPublish, hnone] at hc
      | panic =>
          refine ⟨by simp [applyPublish], ?_, ?_⟩ <;> intro hc <;>
            simp [applyPublish, hrun, hnone] at hc
  | terminate =>
      exact ⟨fun h => hinv.1 h, hinv.2.1, hinv.2.2⟩

lemma reachable_inv {s : SorterState} (h : Reachable s) : StateInv s := by
  induction h with
  | init => exact stateInv_init
  | step _ hstep ih => exact stateInv_step ih hstep

lemma readBatches_flag_true (batches : List BatchOutcome) (k : Nat)
    (acc : List (List Value)) (flagAt : Nat → Bool) (hflag : ∀ j, flagAt j = true) :
    readBatches flagAt batches k acc =
      match batches with
      | [] => .ok acc
      | .err m :: _ => .error m
      | .ok _ :: _ => .error "Terminated" := by
  cases batches with
  | nil => rfl
  | cons b rest =>
      cases b with
      | err m => rfl
      | ok batch =>
          rw [readBatches, hflag k]
          simp

/-!
Claim theorems.
-/

/-- C1: for every finished job over a column with N data rows, the published
`SortResult` satisfies the inverse-permutation invariant: `record_indices`
and `record_orders` both have length N, `record_indices[record_orders[i]] = i`
for every i < N, and `record_orders[record_indices[r]] = r` for every
r < N. -/
theorem C1_inverse_permutation (col : List Value) :
    (buildSortResult col).record_indices.length = col.length ∧
    (buildSortResult col).record_orders.length = col.length ∧
    (∀ i, i < col.length →
      (buildSortResult col).record_indices.getD
        ((buildSortResult col).record_orders.getD i 0) 0 = i) ∧
    (∀ r, r < col.length →
      (buildSortResult col).record_orders.getD
        ((buildSortResult col).record_indices.getD r 0) 0 = r) := by
  have hlen : (sort_to_indices col).length = col.length := length_sort_to_indices col
  refine ⟨by rw [buildSortResult_record_indices, hlen], length_record_orders col, ?_, ?_⟩
  · intro i hi
    obtain ⟨j, hj, hji⟩ := List.mem_iff_getElem.mp (mem_sort_to_indices.mpr hi)
    have h2 : (buildSortResult col).record_orders.getD i 0 = j := by
      rw [List.getD_eq_getElem?_getD, ← hji, record_orders_getElem?_hit col j hj,
        Option.getD_some]
    rw [h2, buildSortResult_record_indices, List.getD_eq_getElem?_getD,
      List.getElem?_eq_getElem hj, Option.getD_some, hji]
  · intro r hr
    have hr' : r < (sort_to_indices col).length := by rw [hlen]; exact hr
    have h1 : (buildSortResult col).record_indices.getD r 0 = (sort_to_indices col)[r] := by
      rw [buildSortResult_record_indices, List.getD_eq_getElem?_getD,
        List.getElem?_eq_getElem hr', Option.getD_some]
    rw [h1, List.getD_eq_getElem?_getD, record_orders_getElem?_hit col r hr',
      Option.getD_some]

/-- Witness for C1, at the two-row column `[some 2, some 1]`. -/
theorem C1_inverse_permutation_witness :
    (buildSortResult [some 2, some 1]).record_indices.length = 2 ∧
    (buildSortResult [some 2, some 1]).record_indices.getD
      ((buildSortResult [some 2, some 1]).record_orders.getD 0 0) 0 = 0 ∧
    (buildSortResult [some 2, some 1]).record_orders.getD
      ((buildSortResult [some 2, some 1]).record_indices.getD 1 0) 0 = 1 :=
  ⟨(C1_inverse_permutation [some 2, some 1]).1,
   (C1_inverse_permutation [some 2, some 1]).2.2.1 0 (by decide),
   (C1_inverse_permutation [some 2, some 1]).2.2.2 1 (by decide)⟩

/-- C2: the sorted permutation is deterministic for equal keys — whenever two
rows have equal column values, the row with the smaller original row index
receives the smaller rank; in particular, the five duplicate minimal values at
original row indices 0, 9, 99, 999, 1000 of the 1001-row `exampleCol` appear
as exactly `[0, 9, 99, 999, 1000]` in `get_sorted_indices(0, 5)`. -/
theorem C2_deterministic_ties :
    (∀ (col : List Value) (p q : Nat)
      (hp : p < (buildSortResult col).record_indices.length)
      (hq : q < (buildSortResult col).record_indices.length),
      p < q →
      keyAt col ((buildSortResult col).record_indices[p]) =
        keyAt col ((buildSortResult col).record_indices[q]) →
      (buildSortResult col).record_indices[p] <
        (buildSortResult col).record_indices[q]) ∧
    get_sorted_indices (some (buildSortResult exampleCol)) 0 5 =
      some [0, 9, 99, 999, 1000] := by
  constructor
  · intro col p q hp hq hpq hkey
    have hp' : p < (sortedPairs col).length := by
      simpa [buildSortResult_record_indices, sort_to_indices] using hp
    have hq' : q < (sortedPairs col).length := by
      simpa [buildSortResult_record_indices, sort_to_indices] using hq
    simp only [buildSortResult_record_indices, sort_to_indices, List.getElem_map]
      at hkey ⊢
    have h1 := (sortedPairs_getElem_spec col p hp').2
    have h2 := (sortedPairs_getElem_spec col q hq').2
    have hsnd : (sortedPairs col)[p].2 = (sortedPairs col)[q].2 := by
      rw [h1, h2, hkey]
    have hPW : pairLe (sortedPairs col)[p] (sortedPairs col)[q] :=
      List.pairwise_iff_getElem.mp (sortedPairs_pairwise col) p q hp' hq' hpq
    have hle : (sortedPairs col)[p].1 ≤ (sortedPairs col)[q].1 :=
      (pairLe_of_eq_snd hsnd).mp hPW
    have henum_nodup : col.enum.Nodup :=
      List.Nodup.of_map Prod.fst
        (by rw [List.enum_map_fst]; exact List.nodup_range _)
    have hspnodup : (sortedPairs col).Nodup :=
      (sortedPairs_perm col).symm.nodup henum_nodup
    have hne : (sortedPairs col)[p].1 ≠ (sortedPairs col)[q].1 := by
      intro h1eq
      exact absurd (hspnodup.getElem_inj_iff.mp (Prod.ext_iff.mpr ⟨h1eq, hsnd⟩))
        (Nat.ne_of_lt hpq)
    omega
  · decide!

/-- Witness for C2, at the column `[some 1, some 1]` of two equal values:
rank 0 gets row 0, rank 1 gets row 1. -/
theorem C2_deterministic_ties_witness :
    (buildSortResult [some 1, some 1]).record_indices.get ⟨0, by decide⟩ <
      (buildSortResult [some 1, some 1]).record_indices.get ⟨1, by decide⟩ :=
  C2_deterministic_ties.1 [some 1, some 1] 0 1 (by decide) (by decide) (by decide)
    (by decide)

/-- C3: for a finished job over a column with N data rows, `getSortedIndices
(0, N)` returns the whole `record_indices`, and the column values read at
those indices in order are monotonically non-decreasing under the value
comparison `valLe` (ascending, nulls sorted last). -/
theorem C3_total_order (col : List Value) (h : col.length < 2 ^ 64) :
    get_sorted_indices (some (buildSortResult col)) 0 col.length =
      some ((buildSortResult col).record_indices) ∧
    List.Pairwise (fun i j => valLe (keyAt col i) (keyAt col j) = true)
      (buildSortResult col).record_indices := by
  constructor
  · rw [get_sorted_indices_eq_window _ 0 col.length (by omega), List.drop_zero]
    rw [show col.length = (buildSortResult col).record_indices.length from
      by rw [buildSortResult_record_indices, length_sort_to_indices]]
    rw [List.take_length]
  · rw [List.pairwise_iff_getElem]
    intro p q hp hq hpq
    have hp' : p < (sortedPairs col).length := by
      simpa [buildSortResult_record_indices, sort_to_indices] using hp
    have hq' : q < (sortedPairs col).length := by
      simpa [buildSortResult_record_indices, sort_to_indices] using hq
    simp only [buildSortResult_record_indices, sort_to_indices, List.getElem_map]
    have h1 := (sortedPairs_getElem_spec col p hp').2
    have h2 := (sortedPairs_getElem_spec col q hq').2
    have hPW : pairLe (sortedPairs col)[p] (sortedPairs col)[q] :=
      List.pairwise_iff_getElem.mp (sortedPairs_pairwise col) p q hp' hq' hpq
    rw [← h1, ← h2]
    exact pairLe_imp_valLe hPW

/-- Witness for C3, at the three-row column `[some 5, none, some 3]`
(one null, which must sort last). -/
theorem C3_total_order_witness :
    get_sorted_indices (some (buildSortResult [some 5, none, some 3])) 0 3 =
      some ((buildSortResult [some 5, none, some 3]).record_indices) ∧
    List.Pairwise
      (fun i j => valLe (keyAt [some 5, none, some 3] i)
        (keyAt [some 5, none, some 3] j) = true)
      (buildSortResult [some 5, none, some 3]).record_indices :=
  C3_total_order [some 5, none, some 3] (by decide)

/-- A published result with five rows (the identity permutation), used as the
concrete input for the windowing and overflow claims. -/
def identityResult5 : SortResult :=
  { record_indices := [0, 1, 2, 3, 4]
    record_orders := [0, 1, 2, 3, 4] }

/-- Counterexample for C4 as stated: with `rows_from = 1` and
`num_rows = 2 ^ 64 - 1` the u64 loop bound wraps to 0, so the query returns
the empty window instead of `min(num_rows, N - rows_from) = 4` entries. -/
theorem C4_windowing_counterexample :
    ¬ (∀ (r : SortResult) (rows_from num_rows : Nat),
        (get_sorted_indices (some r) rows_from num_rows).map List.length =
          some (min num_rows (r.record_indices.length - rows_from))) := by
  intro h
  have hx := h identityResult5 1 (2 ^ 64 - 1)
  have heq : get_sorted_indices (some identityResult5) 1 (2 ^ 64 - 1) = some [] := by
    decide
  rw [heq] at hx
  revert hx
  decide

/-- C4 as amended: for every published result with N rows and all arguments
with `rows_from + num_rows ≤ 2 ^ 64 - 1` (so that the u64 loop bound does not
overflow), `get_sorted_indices` returns the window of `record_indices`
starting at `rows_from`, of exactly `min(num_rows, max(0, N - rows_from))`
entries (ℕ-truncated subtraction implements the `max 0`), and in particular
the empty sequence — not `none` — when `rows_from ≥ N`. -/
theorem C4_windowing (r : SortResult) (rows_from num_rows : Nat)
    (h : rows_from + num_rows ≤ 2 ^ 64 - 1) :
    get_sorted_indices (some r) rows_from num_rows =
      some ((r.record_indices.drop rows_from).take num_rows) ∧
    (get_sorted_indices (some r) rows_from num_rows).map List.length =
      some (min num_rows (r.record_indices.length - rows_from)) ∧
    (r.record_indices.length ≤ rows_from →
      get_sorted_indices (some r) rows_from num_rows = some []) := by
  have hw := get_sorted_indices_eq_window r rows_from num_rows (by omega)
  refine ⟨hw, ?_, ?_⟩
  · rw [hw]
    simp [List.length_take, List.length_drop]
  · intro hN
    rw [hw, List.drop_eq_nil_of_le hN, List.take_nil]

/-- Witness for C4 (amended), at the five-row identity result with
`rows_from = 1`, `num_rows = 3`. -/
theorem C4_windowing_witness :
    get_sorted_indices (some identityResult5) 1 3 = some [1, 2, 3] :=
  (C4_windowing identityResult5 1 3 (by decide)).1.trans (by decide)

/-- C10: `get_sorted_indices` bounds its scan by the unguarded u64 sum
`rows_from + num_rows`; whenever that sum is at most `2 ^ 64 - 1` the
operation is total and returns the requested window, and the precondition is
necessary — at `rows_from = 1`, `num_rows = 2 ^ 64 - 1` the sum exceeds
`2 ^ 64 - 1`, the addition wraps, and the returned window is wrong. -/
theorem C10_u64_sum_precondition :
    (∀ (r : SortResult) (rows_from num_rows : Nat),
      rows_from + num_rows ≤ 2 ^ 64 - 1 →
      get_sorted_indices (some r) rows_from num_rows =
        some ((r.record_indices.drop rows_from).take num_rows)) ∧
    (1 + (2 ^ 64 - 1) > 2 ^ 64 - 1 ∧
      get_sorted_indices (some identityResult5) 1 (2 ^ 64 - 1) ≠
        some ((identityResult5.record_indices.drop 1).take (2 ^ 64 - 1))) := by
  refine ⟨fun r a b hb => get_sorted_indices_eq_window r a b (by omega), ?_, ?_⟩
  · omega
  · decide

/-- Witness for C10, at the five-row identity result with `rows_from = 0`,
`num_rows = 2`. -/
theorem C10_u64_sum_precondition_witness :
    get_sorted_indices (some identityResult5) 0 2 =
      some ((identityResult5.record_indices.drop 0).take 2) :=
  C10_u64_sum_precondition.1 identityResult5 0 2 (by decide)

/-- C5: in every reachable state, status `Finished` implies the `SortResult`
is present — the worker stores the result and sets `Finished` in the same
critical section, so no reader can observe `Finished` without a result. -/
theorem C5_finished_has_result (s : SorterState) (h : Reachable s)
    (hf : s.status = .Finished) : s.sort_result.isSome = true :=
  (reachable_inv h).2.1 hf

/-- The state after the worker publishes a successful one-row result. -/
def finishedState : SorterState :=
  applyPublish initState (.ok { record_indices := [0], record_orders := [0] })

/-- Witness for C5, at the reachable state in which the worker has published
a one-row result. -/
theorem C5_finished_has_result_witness :
    Reachable finishedState ∧ finishedState.status = .Finished ∧
      finishedState.sort_result.isSome = true :=
  have hr : Reachable finishedState :=
    Reachable.step Reachable.init
      (Step.publish (.ok { record_indices := [0], record_orders := [0] }) initState rfl)
  ⟨hr, rfl, C5_finished_has_result finishedState hr rfl⟩

/-- C6: whenever the status is not `Finished` (so while `Running`, and forever
after an `Error`, including cancellation), both query methods return `none`;
moreover an `Error` status survives every further step, so the queries return
`none` forever after — no partially computed sort is ever exposed. -/
theorem C6_not_finished_queries_none (s : SorterState) (h : Reachable s) :
    (s.status ≠ .Finished →
      (∀ rows_from num_rows, get_sorted_indices s.sort_result rows_from num_rows = none) ∧
      (∀ row_index, get_record_order s.sort_result row_index = none)) ∧
    (∀ m s', s.status = .Error m → Step s s' → s'.status = .Error m) := by
  constructor
  · intro hnf
    have hres : s.sort_result = none := by
      cases hres : s.sort_result with
      | none => rfl
      | some r => exact absurd ((reachable_inv h).2.2 (by rw [hres]; rfl)) hnf
    rw [hres]
    exact ⟨fun _ _ => rfl, fun _ => rfl⟩
  · intro m s' herr hstep
    cases hstep with
    | publish o _ hpc =>
        rw [((reachable_inv h).1 hpc).1] at herr
        cases herr
    | terminate => exact herr

/-- Witness for C6, at the initial state (status `Running`). -/
theorem C6_not_finished_queries_none_witness :
    get_sorted_indices initState.sort_result 0 5 = none ∧
      get_record_order initState.sort_result 0 = none :=
  have h := (C6_not_finished_queries_none initState Reachable.init).1 (by decide)
  ⟨h.1 0 5, h.2 0⟩

/-- C7: every step from a reachable state either keeps the status or moves it
from `Running` to `Finished` or to `Error(m)`; once the status is `Finished`
or `Error`, no step (worker publish, `requestTermination`, drop — queries are
read-only) ever changes it. -/
theorem C7_terminal_monotonicity (s s' : SorterState) (h : Reachable s)
    (hstep : Step s s') :
    (s'.status = s.status ∨
      (s.status = .Running ∧
        (s'.status = .Finished ∨ ∃ m, s'.status = .Error m))) ∧
    ((s.status = .Finished ∨ ∃ m, s.status = .Error m) → s'.status = s.status) := by
  cases hstep with
  | publish o _ hpc =>
      have hrun := ((reachable_inv h).1 hpc).1
      constructor
      · cases o with
        | ok r => exact Or.inr ⟨hrun, Or.inl rfl⟩
        | err m => exact Or.inr ⟨hrun, Or.inr ⟨m, rfl⟩⟩
        | panic => exact Or.inl rfl
      · intro hterm
        rcases hterm with hf | ⟨m, he⟩
        · rw [hrun] at hf
          cases hf
        · rw [hrun] at he
          cases he
  | terminate => exact ⟨Or.inl rfl, fun _ => rfl⟩

/-- The initial state after `requestTermination` has set the flag. -/
def terminatedState : SorterState := { initState with should_terminate := true }

/-- Witness for C7, at the `requestTermination` step from the initial
state. -/
theorem C7_terminal_monotonicity_witness :
    (terminatedState.status = initState.status ∨
      (initState.status = .Running ∧
        (terminatedState.status = .Finished ∨
          ∃ m, terminatedState.status = .Error m))) ∧
    ((initState.status = .Finished ∨ ∃ m, initState.status = .Error m) →
      terminatedState.status = initState.status) :=
  C7_terminal_monotonicity initState terminatedState Reachable.init
    (Step.terminate initState)

/-- C8: the worker checks the `should_terminate` flag exactly once after each
batch it consumes; if the flag is set from construction on (it is never
cleared, so every check reads `true`), the worker can never produce `Ok` —
status never becomes `Finished` — and as soon as schema inference, the file
open and the first batch read succeed, it returns `Err("Terminated")`. -/
theorem C8_cancellation :
    (∀ (inferResult openResult : Except String Unit) (batches : List BatchOutcome)
      (r : SortResult),
      runWorker inferResult openResult batches (fun _ => true) ≠ .ok r) ∧
    (∀ (b : List Value) (rest : List BatchOutcome),
      runWorker (.ok ()) (.ok ()) (.ok b :: rest) (fun _ => true) =
        .err "Terminated") ∧
    (∀ (flagAt : Nat → Bool) (b : List Value) (rest : List BatchOutcome)
      (k : Nat) (acc : List (List Value)),
      (flagAt k = true →
        readBatches flagAt (.ok b :: rest) k acc = .error "Terminated") ∧
      (flagAt k = false →
        readBatches flagAt (.ok b :: rest) k acc =
          readBatches flagAt rest (k + 1) (acc ++ [b]))) := by
  refine ⟨?_, ?_, ?_⟩
  · intro inferResult openResult batches r hok
    cases inferResult with
    | error m => simp [runWorker] at hok
    | ok u =>
      cases openResult with
      | error m => simp [runWorker] at hok
      | ok u2 =>
        have hrb := readBatches_flag_true batches 0 [] (fun _ => true) (fun _ => rfl)
        cases batches with
        | nil => simp [runWorker, hrb, List.isEmpty] at hok
        | cons b rest =>
            cases b with
            | err m => simp [runWorker, hrb] at hok
            | ok batch => simp [runWorker, hrb] at hok
  · intro b rest
    rfl
  · intro flagAt b rest k acc
    constructor
    · intro hf
      rw [readBatches, hf]
      simp
    · intro hf
      rw [readBatches, hf]
      simp

/-- Witness for C8: with the flag set, one successfully read batch yields
`Err("Terminated")`, and an empty batch stream cannot yield `Ok` either. -/
theorem C8_cancellation_witness :
    runWorker (.ok ()) (.ok ()) [.ok [some 1]] (fun _ => true) = .err "Terminated" ∧
      runWorker (.ok ()) (.ok ()) [] (fun _ => true) ≠
        .ok { record_indices := [], record_orders := [] } :=
  ⟨C8_cancellation.2.1 [some 1] [],
   C8_cancellation.1 (.ok ()) (.ok ()) []
     { record_indices := [], record_orders := [] }⟩

/-- C9: schema inference passes the sampling bound `Some(1000)` to the
external inference call and propagates its failures (file cannot be opened,
no header); on success every integer-typed field is replaced by the same
field with data type `Float64` and every non-integer field is kept
unchanged. -/
theorem C9_schema_inference :
    infer_schema_max_records = some 1000 ∧
    (∀ e, infer_schema (.error e) = .error e) ∧
    (∀ fields : List ArrowField, ∃ out, infer_schema (.ok fields) = .ok out ∧
      out.length = fields.length ∧
      (∀ (k : Nat) (f : ArrowField), fields[k]? = some f →
        f.data_type.is_integer = true →
        out[k]? = some (f.with_data_type .float64)) ∧
      (∀ (k : Nat) (f : ArrowField), fields[k]? = some f →
        f.data_type.is_integer = false → out[k]? = some f)) := by
  refine ⟨rfl, fun e => rfl, ?_⟩
  intro fields
  refine ⟨_, rfl, List.length_map _ _, ?_, ?_⟩
  · intro k f hf hint
    rw [List.getElem?_map, hf, Option.map_some', if_pos hint]
  · intro k f hf hint
    rw [List.getElem?_map, hf, Option.map_some',
      if_neg (by rw [hint]; exact Bool.false_ne_true)]

/-- Witness for C9: a failed inference propagates, and a two-field schema
(one integer field, one string field) is widened pointwise. -/
theorem C9_schema_inference_witness :
    infer_schema (.error "no header") = .error "no header" ∧
    infer_schema (.ok [ArrowField.mk "a" DataType.int32 true,
        ArrowField.mk "b" DataType.utf8 false]) =
      .ok [ArrowField.mk "a" DataType.float64 true,
        ArrowField.mk "b" DataType.utf8 false] := by
  refine ⟨C9_schema_inference.2.1 "no header", ?_⟩
  obtain ⟨out, hout, hlen, hint, hnon⟩ :=
    C9_schema_inference.2.2 [ArrowField.mk "a" DataType.int32 true,
      ArrowField.mk "b" DataType.utf8 false]
  have h0 : out[0]? = some (ArrowField.mk "a" DataType.float64 true) :=
    hint 0 (ArrowField.mk "a" DataType.int32 true) rfl rfl
  have h1 : out[1]? = some (ArrowField.mk "b" DataType.utf8 false) :=
    hnon 1 (ArrowField.mk "b" DataType.utf8 false) rfl rfl
  have heq : out = [ArrowField.mk "a" DataType.float64 true,
      ArrowField.mk "b" DataType.utf8 false] := by
    apply List.ext_getElem?
    intro i
    match i with
    | 0 => rw [h0]; rfl
    | 1 => rw [h1]; rfl
    | n + 2 =>
        rw [List.getElem?_eq_none (by simp at hlen ⊢; omega),
          List.getElem?_eq_none (by simp)]
  rw [hout, heq]
